import Mathlib

/-!
A shallow embedding of `parse.py` from the Assemblance repository: an
assembly-language tokenizer and annotator.  Pure string manipulation is
modelled over `List Char` / `String`; the request-global `flask.g` object and
the mutable mnemonic reference table are threaded as explicit state; Python
exceptions (`AttributeError`, `KeyError`, `IndexError`, `ValueError`) are
modelled with `Except`.
-/

set_option maxRecDepth 16384

namespace Assemblance

/-! ### Python string primitives -/

/-- The characters Python's `str.strip()` / `str.split()` / the regex class
`\s` treat as whitespace. -/
def pyIsSpace (c : Char) : Bool :=
  c = ' ' || c = '\t' || c = '\n' || c = '\r' || c = '\x0b' || c = '\x0c'

/-- Separator class of the regex `[\s,]+` used by `tokenize`. -/
def isSep (c : Char) : Bool := pyIsSpace c || c = ','

/-- `s.split(sep)` for a single-character separator: every occurrence of the
separator starts a new (possibly empty) segment.  Mirrors Python
`str.split(sep)` which never returns an empty list. -/
def splitOnChar (sep : Char) : List Char → List (List Char)
  | [] => [[]]
  | c :: cs =>
    match splitOnChar sep cs with
    | [] => if c = sep then [[], []] else [[c]]
    | t :: ts => if c = sep then [] :: t :: ts else (c :: t) :: ts

-- Splitting on maximal nonempty runs of characters satisfying `sep`,
-- keeping empty boundary segments: the semantics of `re.split(r'[X]+', s)`.
mutual

/-- Consume non-separator characters into the current (reversed) segment. -/
def splitRunsGo (sep : Char → Bool) (cur : List Char) : List Char → List (List Char)
  | [] => [cur.reverse]
  | c :: cs =>
    if sep c then cur.reverse :: splitRunsSkip sep cs
    else splitRunsGo sep (c :: cur) cs

/-- Consume the remainder of a separator run. -/
def splitRunsSkip (sep : Char → Bool) : List Char → List (List Char)
  | [] => [[]]
  | c :: cs =>
    if sep c then splitRunsSkip sep cs
    else splitRunsGo sep [c] cs

end

/-- `re.split(r'[X]+', s)` over a character class `sep`. -/
def splitRuns (sep : Char → Bool) (s : List Char) : List (List Char) :=
  splitRunsGo sep [] s

/-- Python `str.split()` with no argument: split on whitespace runs and drop
empty segments. -/
def pysplit (s : List Char) : List (List Char) :=
  (splitRuns pyIsSpace s).filter (fun t => !t.isEmpty)

/-- Python `s.strip(chars)`: drop characters satisfying `p` from both ends. -/
def pystripP (p : Char → Bool) (s : List Char) : List Char :=
  ((s.dropWhile p).reverse.dropWhile p).reverse

/-- Python `s.strip()` (whitespace on both ends). -/
def pystrip (s : List Char) : List Char := pystripP pyIsSpace s

/-- Python substring test `p in s` for strings. -/
def containsSub (p : List Char) : List Char → Bool
  | [] => p.isEmpty
  | c :: s => p.isPrefixOf (c :: s) || containsSub p s

/-- Python `s.startswith(p)`. -/
def pyStartsWith (s p : String) : Bool := p.data.isPrefixOf s.data

/-- Python `s.endswith(p)`. -/
def pyEndsWith (s p : String) : Bool := p.data.isSuffixOf s.data

/-! ### `tokenize` (parse.py lines 255-281) -/

/-- The alternating walk over `line.split('"')` in `tokenize`: segments at
even index (flag `false`) are outside quotes and whitespace-split, segments
at odd index (flag `true`) are re-wrapped as one token with the surrounding
quotes restored. -/
def quoteSplit : Bool → List (List Char) → List (List Char)
  | _, [] => []
  | false, bit :: rest => pysplit bit ++ quoteSplit true rest
  | true, bit :: rest => ('"' :: (bit ++ ['"'])) :: quoteSplit false rest

/-- `tokenize(line)`: strip the `#` comment, strip surrounding whitespace,
then split on `[\s,]+` if the line has no double quote, otherwise split
quoted and unquoted segments separately. -/
def tokenize (line : List Char) : List (List Char) :=
  let line :=
    match splitOnChar '#' line with
    | [] => []
    | t :: _ => t
  let line := pystrip line
  if line.contains '"' then
    quoteSplit false (splitOnChar '"' line)
  else
    splitRuns isSep line

/-! ### Module constants (parse.py lines 20-35) -/

/-- Number of different colors to use in matching. -/
def ncolors : Nat := 5

/-- Allowed size suffixes and values. -/
def sizes : List (Char × Nat) := [('q', 8), ('l', 4), ('w', 2), ('b', 1)]

/-- Allowed directives. -/
def whitelist : List String :=
  [".section", ".globl", ".byte", ".word",
   ".long", ".quad", ".type", ".asciz", ".ascii", ".string", ".skip"]

/-- `re.match` of the pattern
`((.LF)|(.Ltemp)|(.Ltmp)|(.Ltext)|(.LVL)|(.Lfunc)|(.Letext)).*` against `s`:
anchored at the start, the leading `.` of each alternative is the regex
wildcard (any character but a newline), the rest is literal, and the
trailing `.*` matches any remainder. -/
def badlabelMatch (s : String) : Bool :=
  match s.data with
  | [] => false
  | c :: rest =>
    c ≠ '\n' &&
      (["LF", "Ltemp", "Ltmp", "Ltext", "LVL", "Lfunc", "Letext"].any
        (fun p => p.data.isPrefixOf rest))

/-! ### The mnemonic reference table

`parse.py` loads `ref` from `ref.json`, a file that is not part of the
repository's sources, so the table's contents are a parameter of the model:
an association list from mnemonic to entry.  Only the fields used by
`handle_mnemonic` and the tooltip template are modelled. -/

/-- One entry of `ref.json`: tooltip fields plus the operand-size list
(`0` is the unsized/wildcard slot). -/
structure RefEntry where
  name : String
  syn : String
  desc : String
  flags : String
  size : List Nat
  deriving DecidableEq, Repr

/-- The mnemonic reference table, threaded as explicit state because
`handle_mnemonic` mutates the entry it fetched in place. -/
abbrev Ref := List (String × RefEntry)

/-! ### Markup format strings (parse.py lines 42-90)

Python's `str.format` templates are modelled as functions returning the
substituted string, newlines and indentation included. -/

/-- The `div` template: `"\n    <div id=\"{d}\" class=\"{cl}\">{cx}</div>\n"`. -/
def divFmt (d cl cx : String) : String :=
  "\n    <div id=\"" ++ d ++ "\" class=\"" ++ cl ++ "\">" ++ cx ++ "</div>\n"

/-- The `span` template. -/
def spanFmt (cl cx : String) : String :=
  "\n    <span class=\"" ++ cl ++ "\">" ++ cx ++ "</span>\n"

/-- The `tooltip` template for a mnemonic, fields drawn from a `RefEntry`. -/
def tooltipFmt (mnem : String) (entry : RefEntry) : String :=
  "\n    <div class=\"m-tt\">\n        <div class=\"tt-row\">\n            <span class=\"tt-title\"> "
    ++ entry.name
    ++ " </span>\n            <span class=\"tt-syn\">\n            <span class=\"tt-mnem\"> "
    ++ mnem ++ " </span> " ++ entry.syn
    ++ "\n            </span>\n        </div>\n        <div class=\"tt-row\">\n            <span class=\"tt-desc\">"
    ++ entry.desc
    ++ "</span>\n        </div>\n        <div class=\"tt-row\">\n            Flags affected:\n            <span class=\"tt-flags\"> "
    ++ entry.flags
    ++ " </span>\n        </div>\n    </div><!-- /.tt -->\n"

/-- One entry of the per-function location table `g.locs` (set up outside
`parse.py` by the web layer): the fields the `location` template reads. -/
structure LocEntry where
  type : String
  name : String
  line : String
  role : String
  deriving DecidableEq, Repr

/-- The location table: function name to (operand name to entry). -/
abbrev Locs := List (String × List (String × LocEntry))

/-- The `location` tooltip template for a variable. -/
def locationFmt (entry : LocEntry) (fcn : String) : String :=
  "\n    <div class=\"v-tt\">\n        <div class=\"tt-row\">\n            <span class=\"tt-type\">"
    ++ entry.type
    ++ "</span>\n            <span class=\"tt-mnem\">"
    ++ entry.name
    ++ "</span>\n            <span class=\"tt-linum tt-right\">(decl. line "
    ++ entry.line
    ++ ")</span>\n        </div>\n        <div class=\"tt-row\">\n            <span class=\"tt-linum tt-left\">"
    ++ entry.role
    ++ " in </span>\n            <span class=\"tt-mnem\">&nbsp;"
    ++ fcn
    ++ "()</span>\n        </div>\n    </div>\n"

/-- The `linelabel` template. -/
def linelabelFmt (cline : Int) : String :=
  "\n    <div class=\"line-label\">(line " ++ toString cline ++ ")</div>\n"

/-- The `colordiv` template. -/
def colordivFmt (cline : Int) (color : Nat) : String :=
  "\n    <div id=\"for-line-" ++ toString cline ++ "\" class=\"loc color-"
    ++ toString color ++ "\">\n"

/-- The `</div><!-- /.loc -->\n` string closing an open color group. -/
def closeLoc : String := "</div><!-- /.loc -->\n"

/-! ### `wrap_token` and `handle_mnemonic` (parse.py lines 114-153) -/

/-- `wrap_token(token, cl)`: the default formatting of a token. -/
def wrap_token (token cl : String) : String :=
  divFmt "" cl (spanFmt "token-text" token)

/-- Replace the binding of `k` in an association list, modelling in-place
mutation of the Python dict object the list entry aliases. -/
def refUpdate (ref : Ref) (k : String) (v : RefEntry) : Ref :=
  ref.map (fun p => if p.1 = k then (p.1, v) else p)

/-- The lookup-and-resolve core of `handle_mnemonic`: exact match uses the
entry as is; otherwise, if the token minus its last character is a known
base and the removed character a recognized size suffix, the base entry's
wildcard (0) size slots are overwritten with the suffix's byte size — in
place, so the mutated entry also replaces the base's binding in `ref`.
Returns `none` when no tooltip entry applies. -/
def resolve_mnemonic (ref : Ref) (token : String) : Option RefEntry × Ref :=
  match ref.lookup token with
  | some entry => (some entry, ref)
  | none =>
    let base := String.mk token.data.dropLast
    match ref.lookup base, token.data.getLast? with
    | some entry, some suffix =>
      match sizes.lookup suffix with
      | none => (none, ref)
      | some sz =>
        let entry' := { entry with
          size := entry.size.map (fun s => if s = 0 then sz else s) }
        (some entry', refUpdate ref base entry')
    | _, _ => (none, ref)

/-- `handle_mnemonic(token, cl)`: tooltip markup when the mnemonic resolves,
`wrap_token` otherwise; the possibly mutated reference table is returned. -/
def handle_mnemonic (ref : Ref) (token cl : String) : String × Ref :=
  match resolve_mnemonic ref token with
  | (some entry, ref') =>
    let token_wrapped := spanFmt "token-text" token
    let cx := token_wrapped ++ tooltipFmt token entry
    (divFmt "" "asm-mnemonic asm-token" cx, ref')
  | (none, ref') => (wrap_token token cl, ref')

/-! ### The request-global `flask.g` object

Attributes of `g` raise `AttributeError` when read before being set, so each
is an `Option` (`none` = attribute absent). -/

/-- The request-global object: `fnc` (set to `None` by `process_asm`, hence
`Option (Option String)`), `fcn` (set by the `@function` branch) and `locs`
(the location table, installed by the web layer before processing). -/
structure G where
  fnc : Option (Option String)
  fcn : Option String
  locs : Option Locs
  deriving DecidableEq, Repr

/-! ### `process_operand` (parse.py lines 311-329) -/

/-- Python `s.rstrip(',')`. -/
def rstripComma (s : List Char) : List Char :=
  (s.reverse.dropWhile (fun c => c = ',')).reverse

/-- Modelled from the spec: `format.py` (the `OpLexer` / `DivFormatter` pair
invoked through `highlight(token, oplexer, opformatter)`) is not among the
sources; the spec treats it as an external pluggable lexer+formatter for
operand-internal highlighting whose output is a div of class `operand-text`
with span-wrapped sub-tokens.  No claim depends on its exact output. -/
def highlightOp (token : String) : String :=
  divFmt "" "operand-text" (spanFmt "token-op-text" token)

/-- `process_operand(token)`: skip `#` comments, highlight the operand, then
look it up (trailing comma stripped) in the location table scoped by the
active function.  Reading `g.locs` or `g.fcn` when unset raises
`AttributeError`; indexing `g.locs[g.fcn]` with an unknown function raises
`KeyError`. -/
def process_operand (g : G) (token : String) : Except String String :=
  if pyStartsWith token "#" then .ok ""
  else
    let cl := "asm-token asm-operand"
    let cx := highlightOp token
    match g.locs with
    | none => .error "AttributeError: g.locs"
    | some locs =>
      match g.fcn with
      | none => .error "AttributeError: g.fcn"
      | some fcn =>
        match locs.lookup fcn with
        | none => .error "KeyError: g.locs[g.fcn]"
        | some tbl =>
          let cx :=
            match tbl.lookup (String.mk (rstripComma token.data)) with
            | some entry => cx ++ locationFmt entry fcn
            | none => cx
          .ok (wrap_token cx cl)

/-! ### `process_tokens` (parse.py lines 283-309) -/

/-- `process_tokens(tokens)`: merge a leading `rep` with the next token, then
render a label, a directive with plainly wrapped operands, or a mnemonic with
annotated operands.  Returns the markup and the (possibly mutated) reference
table. -/
def process_tokens (g : G) (ref : Ref) (tokens : List String) :
    Except String (String × Ref) :=
  match tokens with
  | [] => .error "IndexError: tokens[0]"
  | t0 :: rest =>
    let merged : Except String (String × List String) :=
      if t0 = "rep" then
        match rest with
        | [] => .error "IndexError: tokens.pop(1)"
        | r :: rs => .ok (t0 ++ " " ++ r, rs)
      else .ok (t0, rest)
    match merged with
    | .error e => .error e
    | .ok (t0, rest) =>
      if pyEndsWith t0 ":" then
        .ok (wrap_token t0 "asm-token asm-label", ref)
      else if pyStartsWith t0 "." then
        let m := wrap_token t0 "asm-token asm-directive"
        let m := rest.foldl (fun m tk => m ++ wrap_token tk "asm-token") m
        .ok (m, ref)
      else
        let (m, ref') := handle_mnemonic ref t0 "asm-token asm-mnemonic"
        match rest.foldlM (fun m tk =>
            (process_operand g tk).map (fun s => m ++ s)) m with
        | .error e => .error e
        | .ok m => .ok (m, ref')

/-! ### `process_asm` (parse.py lines 160-253) -/

/-- Python `int(s)` on the strings that occur as `.loc` operands: optional
surrounding whitespace, optional sign, one or more decimal digits
(`ValueError` otherwise, modelled as `none`). -/
def digitsVal? (ds : List Char) : Option Nat :=
  if ds.isEmpty then none
  else
    ds.foldl (fun acc c =>
      match acc with
      | none => none
      | some n => if c.isDigit then some (n * 10 + (c.toNat - 48)) else none)
      (some 0)

/-- `int(tokens[2])`. -/
def pyInt? (s : List Char) : Option Int :=
  match pystrip s with
  | '-' :: ds => (digitsVal? ds).map (fun n => -(n : Int))
  | '+' :: ds => (digitsVal? ds).map (fun n => (n : Int))
  | ds => (digitsVal? ds).map (fun n => (n : Int))

/-- The mutable state of one `process_asm` run. -/
structure St where
  markup : String
  blockOpen : Bool
  colors : List (Int × Nat)
  blocknum : Nat
  asmline : Nat
  g : G
  ref : Ref
  deriving DecidableEq, Repr

/-- Result of processing one line of the loop body: `next` is Python's
`continue`/fall-through, `stop` is `break`, `fail` is an uncaught
exception. -/
inductive LineRes where
  | next (st : St)
  | stop (st : St)
  | fail (msg : String)
  deriving DecidableEq, Repr

/-- Replace every occurrence of character `c` by the string `rep`
(Python `str.replace` for a single-character pattern). -/
def replaceChar (c : Char) (rep : String) (s : List Char) : List Char :=
  (s.map (fun a => if a = c then rep.data else [a])).flatten

/-- The per-line preprocessing of `process_asm`: escape `<` and `>`, then
expand tabs to four spaces. -/
def pyPreprocess (line : String) : String :=
  String.mk (replaceChar '\t' "    "
    (replaceChar '>' "&gt;" (replaceChar '<' "&lt;" line.data)))

/-- Tokens of a line as `process_asm` sees them. -/
def tokensOf (line : String) : List String :=
  (tokenize (pyPreprocess line).data).map String.mk

/-- The body of `process_asm`'s loop for one line. -/
def process_line (st : St) (line : String) : LineRes :=
  let tokens := tokensOf line
  match tokens with
  | [] => .fail "IndexError: tokens[0]"
  | t0 :: _ =>
    if t0 = "" then .next st
    else if t0 = ".loc" then
      match tokens.get? 2 with
      | none => .fail "IndexError: tokens[2]"
      | some t2 =>
        match pyInt? t2.data with
        | none => .fail "ValueError: int(tokens[2])"
        | some cline =>
          let (colors, blocknum, c) :=
            match st.colors.lookup cline with
            | some c => (st.colors, st.blocknum, c)
            | none => ((cline, st.blocknum % ncolors + 1) :: st.colors,
                       st.blocknum + 1, st.blocknum % ncolors + 1)
          let m := st.markup
            ++ (if st.blockOpen then closeLoc else "")
            ++ colordivFmt cline c
            ++ linelabelFmt cline
          .next { st with markup := m, blockOpen := true,
                          colors := colors, blocknum := blocknum }
    else if pyStartsWith t0 "." && !pyEndsWith t0 ":" && !(whitelist.contains t0) then
      .next st
    else
      let st :=
        if pyStartsWith t0 "." && st.blockOpen then
          { st with markup := st.markup ++ closeLoc, blockOpen := false }
        else st
      if pyEndsWith t0 ":" && badlabelMatch t0 then .next st
      else
        let st :=
          if pyEndsWith t0 ":" && st.blockOpen then
            { st with markup := st.markup ++ closeLoc, blockOpen := false }
          else st
        if (match tokens.get? 1 with
            | some t1 => containsSub ".debug".data t1.data
            | none => false) then
          .stop st
        else
          let gRes : Except String G :=
            if tokens.contains "@function" then
              match tokens.get? 1 with
              | none => .error "IndexError: tokens[1]"
              | some t1 =>
                let fcn' := String.mk (pystripP (fun c => c = ',' || c = ' ') t1.data)
                .ok { st.g with fcn := some fcn' }
            else .ok st.g
          match gRes with
          | .error e => .fail e
          | .ok g =>
            let st := { st with g := g }
            let asmline := st.asmline + 1
            let m := st.markup ++ "<div class=\"asm-line\">"
              ++ divFmt ("asm-line-" ++ toString asmline) "asm-no" (toString asmline)
            match process_tokens st.g st.ref tokens with
            | .error e => .fail e
            | .ok (s, ref) =>
              .next { st with markup := m ++ s ++ "</div>",
                              asmline := asmline, ref := ref }

/-- The loop of `process_asm` over the remaining lines. -/
def runLines (st : St) : List String → Except String St
  | [] => .ok st
  | l :: ls =>
    match process_line st l with
    | .next st' => runLines st' ls
    | .stop st' => .ok st'
    | .fail e => .error e

/-- The state at the top of `process_asm`: header div open, empty color map,
counters at zero, `g.fnc` set to `None`, `g.fcn` untouched, `g.locs` as the
web layer left it. -/
def initSt (ref : Ref) (locs : Option Locs) : St :=
  { markup := "<div class=\"asm-header\">"
    blockOpen := true
    colors := []
    blocknum := 0
    asmline := 0
    g := { fnc := some none, fcn := none, locs := locs }
    ref := ref }

/-- `process_asm(asm)`: run the loop and return the closed markup together
with the line-to-color map. -/
def process_asm (ref : Ref) (locs : Option Locs) (asm : List String) :
    Except String (String × List (Int × Nat)) :=
  match runLines (initSt ref locs) asm with
  | .ok st => .ok (st.markup ++ "</div><!-- /.loc -->", st.colors)
  | .error e => .error e

/-! ### Derived definitions used to state the claims -/

/-- The successor state of a `next` result, when there is one. -/
def LineRes.nextSt? : LineRes → Option St
  | .next st => some st
  | _ => none

/-- The `.loc` event of one line: the source line number recorded by the
`.loc` branch of `process_asm`, when the line is a well-formed `.loc`
directive. -/
def locOf (line : String) : List Int :=
  match tokensOf line with
  | [] => []
  | t0 :: rest =>
    if t0 = ".loc" then
      match (t0 :: rest).get? 2 with
      | some t2 =>
        match pyInt? t2.data with
        | some v => [v]
        | none => []
      | none => []
    else []

/-- The sequence of source line numbers recorded via `.loc` directives during
a run, in encounter order. -/
def locEvents (st : St) : List String → List Int
  | [] => []
  | l :: ls =>
    match process_line st l with
    | .next st' => locOf l ++ locEvents st' ls
    | .stop _ => locOf l
    | .fail _ => locOf l

/-- The color-assignment core of the `.loc` branch, folded over a trace of
source line numbers: an unseen number is bound to `blocknum % ncolors + 1`
and the cursor advances; a seen number changes nothing. -/
def colorFoldGo (cs : List (Int × Nat)) (bn : Nat) : List Int → List (Int × Nat) × Nat
  | [] => (cs, bn)
  | v :: vs =>
    match cs.lookup v with
    | some _ => colorFoldGo cs bn vs
    | none => colorFoldGo ((v, bn % ncolors + 1) :: cs) (bn + 1) vs

/-- Deduplication keeping first occurrences, relative to an already-seen
list. -/
def dedupFirstAux (seen : List Int) : List Int → List Int
  | [] => []
  | v :: vs =>
    if v ∈ seen then dedupFirstAux seen vs
    else v :: dedupFirstAux (v :: seen) vs

/-- The distinct elements of a list in first-seen order. -/
def dedupFirst (vs : List Int) : List Int := dedupFirstAux [] vs

/-- Index of the first occurrence of `L` in a list. -/
def firstIdx? : List Int → Int → Option Nat
  | [], _ => none
  | v :: vs, L => if v = L then some 0 else (firstIdx? vs L).map (· + 1)

/-- Run a prefix of the loop insisting that every line falls through to the
next one (no `break`, no exception). -/
def runThrough (st : St) : List String → Option St
  | [] => some st
  | l :: ls =>
    match process_line st l with
    | .next st' => runThrough st' ls
    | .stop _ => none
    | .fail _ => none

/-- Line `line` is kept by the classifier from state `st`: processing
advances the display line counter, closes the open color group first
(emitting `closeLoc`), and appends markup containing `tok`. -/
def KeptAndCloses (st : St) (line tok : String) : Prop :=
  ∃ st', process_line st line = .next st' ∧
    st'.blockOpen = false ∧
    st'.asmline = st.asmline + 1 ∧
    ∃ rest, st'.markup = st.markup ++ (closeLoc ++ rest) ∧
      containsSub tok.data rest.data = true

/-! ### Sample reference data used by concrete witnesses -/

/-- A sample `ref.json` entry for the base mnemonic `mov` with two
unsized (wildcard) operand-size slots. -/
def movEntry : RefEntry :=
  { name := "Move", syn := "src, dest", desc := "Moves data", flags := "None",
    size := [0, 0] }

/-- A one-entry reference table containing only `mov`. -/
def refMov : Ref := [("mov", movEntry)]

/-! ### Helper lemmas on the tokenizer -/

theorem splitRuns_parts_ne_nil (sep : Char → Bool) (l : List Char) :
    (∀ cur, splitRunsGo sep cur l ≠ []) ∧ splitRunsSkip sep l ≠ [] := by
  induction l with
  | nil =>
    refine ⟨fun cur => ?_, ?_⟩ <;> simp [splitRunsGo, splitRunsSkip]
  | cons c cs ih =>
    refine ⟨fun cur => ?_, ?_⟩
    · simp only [splitRunsGo]
      by_cases h : sep c <;> simp [h]
      exact ih.1 _
    · simp only [splitRunsSkip]
      by_cases h : sep c <;> simp [h]
      · exact ih.2
      · exact ih.1 _

theorem splitRuns_ne_nil (sep : Char → Bool) (l : List Char) :
    splitRuns sep l ≠ [] :=
  (splitRuns_parts_ne_nil sep l).1 []

theorem splitOnChar_ne_nil (sep : Char) (l : List Char) :
    splitOnChar sep l ≠ [] := by
  induction l with
  | nil => simp [splitOnChar]
  | cons c cs ih =>
    simp only [splitOnChar]
    match h : splitOnChar sep cs with
    | [] => exact absurd h ih
    | t :: ts => by_cases hc : c = sep <;> simp [hc]

theorem splitOnChar_two_of_mem (sep : Char) (l : List Char) (h : sep ∈ l) :
    ∃ a b rest, splitOnChar sep l = a :: b :: rest := by
  induction l with
  | nil => cases h
  | cons c cs ih =>
    simp only [splitOnChar]
    match hs : splitOnChar sep cs with
    | [] => exact absurd hs (splitOnChar_ne_nil sep cs)
    | t :: ts =>
      by_cases hc : c = sep
      · exact ⟨[], t, ts, by simp [hc]⟩
      · have hmem : sep ∈ cs := by
          rcases List.mem_cons.mp h with h1 | h1
          · exact absurd h1.symm hc
          · exact h1
        obtain ⟨a, b, rest, hab⟩ := ih hmem
        rw [hs] at hab
        have hts : ts = b :: rest := (List.cons.inj hab).2
        exact ⟨c :: t, b, rest, by simp [hc, hts]⟩

theorem quoteSplit_false_two_ne_nil (b0 b1 : List Char) (rest : List (List Char)) :
    quoteSplit false (b0 :: b1 :: rest) ≠ [] := by
  simp [quoteSplit]

theorem tokenize_ne_nil (l : List Char) : tokenize l ≠ [] := by
  unfold tokenize
  set line0 := (match splitOnChar '#' l with | [] => [] | t :: _ => t) with hline0
  by_cases h : (pystrip line0).contains '"'
  · simp only [h, if_true]
    have hmem : '"' ∈ pystrip line0 := by simpa using h
    obtain ⟨a, b, rest, hab⟩ := splitOnChar_two_of_mem '"' (pystrip line0) hmem
    rw [hab]
    exact quoteSplit_false_two_ne_nil a b rest
  · simp only [h, if_false]
    exact splitRuns_ne_nil isSep (pystrip line0)

theorem tokensOf_ne_nil (line : String) : tokensOf line ≠ [] := by
  unfold tokensOf
  simpa using tokenize_ne_nil (pyPreprocess line).data

/-! ### Helper lemmas on substring containment -/

theorem containsSub_append_right (p b : List Char) (h : containsSub p b = true)
    (a : List Char) : containsSub p (a ++ b) = true := by
  induction a with
  | nil => simpa using h
  | cons x xs ih =>
    simp only [List.cons_append, containsSub, Bool.or_eq_true]
    exact Or.inr ih

theorem containsSub_of_prefix (p x : List Char) (h : p.isPrefixOf x = true) :
    containsSub p x = true := by
  cases x with
  | nil =>
    have : p = [] := by simpa [List.isPrefixOf_iff_prefix] using h
    simp [containsSub, this]
  | cons c cs => simp [containsSub, h]

theorem containsSub_append_left (p a : List Char) (h : containsSub p a = true)
    (b : List Char) : containsSub p (a ++ b) = true := by
  induction a with
  | nil =>
    have : p = [] := by simpa [containsSub] using h
    subst this
    cases b <;> simp [containsSub, List.isPrefixOf]
  | cons x xs ih =>
    simp only [containsSub, Bool.or_eq_true] at h
    rcases h with h | h
    · have hpre : p.isPrefixOf (x :: xs ++ b) = true := by
        rw [List.isPrefixOf_iff_prefix] at h ⊢
        exact h.trans (List.prefix_append _ _)
      simp only [List.cons_append, containsSub, Bool.or_eq_true]
      exact Or.inl (by simpa using hpre)
    · simp only [List.cons_append, containsSub, Bool.or_eq_true]
      exact Or.inr (ih h)

/-! ### Claims -/

/-- Claim C5: tokenizing the line `.string "a, b" # x` yields exactly
`['.string', '"a, b"']`: the `#`-comment is discarded, the unquoted segment
is whitespace-split, and the quoted segment is preserved as one token
including its quote marks and embedded comma and space. -/
theorem claim_C5 :
    (tokenize ".string \"a, b\" # x".data).map String.mk =
      [".string", "\"a, b\""] := by
  rfl

/-- Claim C10: for every input string, `tokenize` returns a non-empty list of
tokens — including on the quote-splitting path — so the classifier's
inspection of the first token (`tokens[0]` in `process_asm`, the head of
`tokensOf`) is always within bounds. -/
theorem claim_C10 :
    ∀ (l : List Char) (line : String), tokenize l ≠ [] ∧ tokensOf line ≠ [] :=
  fun l line => ⟨tokenize_ne_nil l, tokensOf_ne_nil line⟩

/-- Claim C2 (refuted by the code, the claim matching the spec's stated
intent): on a fresh table, `movl` resolves `mov`'s wildcard slots to 4 and
`movq` to 8; but because `handle_mnemonic` edits the fetched entry's size
list in place, the resolution leaks into the shared table: after a `movl`
lookup, a later `movq` lookup resolves to sizes `[4, 4]` instead of
`[8, 8]` — contradicting "regardless of which lookups were performed earlier
in the run". -/
theorem claim_C2 :
    (resolve_mnemonic refMov "movl").1 = some { movEntry with size := [4, 4] } ∧
    (resolve_mnemonic refMov "movq").1 = some { movEntry with size := [8, 8] } ∧
    (resolve_mnemonic (resolve_mnemonic refMov "movl").2 "movq").1 =
      some { movEntry with size := [4, 4] } ∧
    (resolve_mnemonic (resolve_mnemonic refMov "movl").2 "movq").1 ≠
      some { movEntry with size := [8, 8] } := by
  refine ⟨rfl, rfl, rfl, ?_⟩
  decide

/-- Claim C9: a mnemonic token that is neither in the reference table nor
decomposable as a known base plus a recognized size suffix is handled by
`handle_mnemonic` as a plain token wrapping (no tooltip metadata), the table
left untouched; the function is total, so the run is never aborted. -/
theorem claim_C9 (ref : Ref) (token cl : String)
    (h1 : ref.lookup token = none)
    (h2 : ref.lookup (String.mk token.data.dropLast) = none ∨
          ∀ c, token.data.getLast? = some c → sizes.lookup c = none) :
    handle_mnemonic ref token cl = (wrap_token token cl, ref) := by
  rcases h2 with h2 | h2
  · simp [handle_mnemonic, resolve_mnemonic, h1, h2]
  · match hb : ref.lookup (String.mk token.data.dropLast) with
    | none => simp [handle_mnemonic, resolve_mnemonic, h1, hb]
    | some entry =>
      match hl : token.data.getLast? with
      | none => simp [handle_mnemonic, resolve_mnemonic, h1, hb, hl]
      | some c => simp [handle_mnemonic, resolve_mnemonic, h1, hb, hl, h2 c hl]

/-- Witness for C9: the unknown mnemonic `hlt` (not in the one-entry table
`refMov`, and `hl` is not a base there either) is wrapped plainly and the
table is unchanged. -/
theorem claim_C9_witness :
    handle_mnemonic refMov "hlt" "asm-token asm-mnemonic" =
      (wrap_token "hlt" "asm-token asm-mnemonic", refMov) :=
  claim_C9 refMov "hlt" "asm-token asm-mnemonic" rfl (Or.inl rfl)

/-- Counterexample to claim C1 as stated: the line `.globl main` is NOT
suppressed — `.globl` is in the directive whitelist — so from the initial
state the classifier emits it: the display line counter becomes 1, the
markup contains `.globl`, and the open header group is closed. -/
theorem claim_C1_counterexample :
    ((process_line (initSt [] none) ".globl main").nextSt?.map St.asmline
        = some 1) ∧
    ((process_line (initSt [] none) ".globl main").nextSt?.map
        (fun st => containsSub ".globl".data st.markup.data) = some true) ∧
    ((process_line (initSt [] none) ".globl main").nextSt?.map St.blockOpen
        = some false) :=
  ⟨rfl, rfl, rfl⟩

/-- Claim C1 as amended: both `['.globl', 'main']` and
`['.section', '.text']` are whitelisted directive lines, so from any state
with an open color group each is kept (emitted, advancing the display line
counter) and closes the open group. -/
theorem claim_C1 (st : St) (h : st.blockOpen = true) :
    KeptAndCloses st ".globl main" ".globl" ∧
    KeptAndCloses st ".section .text" ".section" := by
  obtain ⟨mk, bo, co, bn, al, g, r⟩ := st
  simp only at h
  subst h
  constructor
  · have hstep : process_line ⟨mk, true, co, bn, al, g, r⟩ ".globl main" =
        .next ⟨mk ++ closeLoc ++ "<div class=\"asm-line\">"
          ++ divFmt ("asm-line-" ++ toString (al + 1)) "asm-no" (toString (al + 1))
          ++ (wrap_token ".globl" "asm-token asm-directive" ++ wrap_token "main" "asm-token")
          ++ "</div>", false, co, bn, al + 1, g, r⟩ := rfl
    refine ⟨_, hstep, rfl, rfl,
      "<div class=\"asm-line\">"
        ++ divFmt ("asm-line-" ++ toString (al + 1)) "asm-no" (toString (al + 1))
        ++ (wrap_token ".globl" "asm-token asm-directive" ++ wrap_token "main" "asm-token")
        ++ "</div>", ?_, ?_⟩
    · simp [String.append_assoc]
    · rw [String.data_append, String.data_append]
      apply containsSub_append_left
      apply containsSub_append_right
      decide
  · have hstep : process_line ⟨mk, true, co, bn, al, g, r⟩ ".section .text" =
        .next ⟨mk ++ closeLoc ++ "<div class=\"asm-line\">"
          ++ divFmt ("asm-line-" ++ toString (al + 1)) "asm-no" (toString (al + 1))
          ++ (wrap_token ".section" "asm-token asm-directive" ++ wrap_token ".text" "asm-token")
          ++ "</div>", false, co, bn, al + 1, g, r⟩ := rfl
    refine ⟨_, hstep, rfl, rfl,
      "<div class=\"asm-line\">"
        ++ divFmt ("asm-line-" ++ toString (al + 1)) "asm-no" (toString (al + 1))
        ++ (wrap_token ".section" "asm-token asm-directive" ++ wrap_token ".text" "asm-token")
        ++ "</div>", ?_, ?_⟩
    · simp [String.append_assoc]
    · rw [String.data_append, String.data_append]
      apply containsSub_append_left
      apply containsSub_append_right
      decide

/-- Witness for C1: the amended claim instantiated at the initial state of a
run over the sample table. -/
theorem claim_C1_witness :
    (initSt refMov none).blockOpen = true ∧
    KeptAndCloses (initSt refMov none) ".globl main" ".globl" ∧
    KeptAndCloses (initSt refMov none) ".section .text" ".section" :=
  ⟨rfl, (claim_C1 (initSt refMov none) rfl).1, (claim_C1 (initSt refMov none) rfl).2⟩

/-- Claim C7: the compiler-internal label `.LFB0:` matches the suppressed
pattern and is dropped (from a state with an open group, nothing but the
group-closing tag is emitted and all counters are unchanged), while `main:`
does not match it and is emitted as a label token (markup containing
`main:` with class `asm-label`), closing the open group. -/
theorem claim_C7 (st : St) (h : st.blockOpen = true) :
    badlabelMatch ".LFB0:" = true ∧
    badlabelMatch "main:" = false ∧
    process_line st ".LFB0:" =
      .next { st with markup := st.markup ++ closeLoc, blockOpen := false } ∧
    KeptAndCloses st "main:" "main:" ∧
    KeptAndCloses st "main:" "asm-label" := by
  obtain ⟨mk, bo, co, bn, al, g, r⟩ := st
  simp only at h
  subst h
  have hstep : process_line ⟨mk, true, co, bn, al, g, r⟩ "main:" =
      .next ⟨mk ++ closeLoc ++ "<div class=\"asm-line\">"
        ++ divFmt ("asm-line-" ++ toString (al + 1)) "asm-no" (toString (al + 1))
        ++ wrap_token "main:" "asm-token asm-label"
        ++ "</div>", false, co, bn, al + 1, g, r⟩ := rfl
  refine ⟨rfl, rfl, rfl, ?_, ?_⟩
  · refine ⟨_, hstep, rfl, rfl,
      "<div class=\"asm-line\">"
        ++ divFmt ("asm-line-" ++ toString (al + 1)) "asm-no" (toString (al + 1))
        ++ wrap_token "main:" "asm-token asm-label"
        ++ "</div>", ?_, ?_⟩
    · simp [String.append_assoc]
    · rw [String.data_append, String.data_append]
      apply containsSub_append_left
      apply containsSub_append_right
      decide
  · refine ⟨_, hstep, rfl, rfl,
      "<div class=\"asm-line\">"
        ++ divFmt ("asm-line-" ++ toString (al + 1)) "asm-no" (toString (al + 1))
        ++ wrap_token "main:" "asm-token asm-label"
        ++ "</div>", ?_, ?_⟩
    · simp [String.append_assoc]
    · rw [String.data_append, String.data_append]
      apply containsSub_append_left
      apply containsSub_append_right
      decide

/-- Witness for C7: the theorem instantiated at the initial state of a run
over the sample table. -/
theorem claim_C7_witness :
    (initSt refMov none).blockOpen = true ∧
    (badlabelMatch ".LFB0:" = true ∧
     badlabelMatch "main:" = false ∧
     process_line (initSt refMov none) ".LFB0:" =
       .next { initSt refMov none with
               markup := (initSt refMov none).markup ++ closeLoc,
               blockOpen := false } ∧
     KeptAndCloses (initSt refMov none) "main:" "main:" ∧
     KeptAndCloses (initSt refMov none) "main:" "asm-label") :=
  ⟨rfl, claim_C7 (initSt refMov none) rfl⟩

/-- Counterexample to claim C6 as stated: `.foo .debug_info` has `.debug` in
its second token, yet it is a suppressed directive (`.foo` is not
whitelisted), so the classifier `continue`s before ever reaching the debug
check — and the following line `ret` still contributes to the output. -/
theorem claim_C6_counterexample :
    ((tokensOf ".foo .debug_info").get? 1).map
        (fun t => containsSub ".debug".data t.data) = some true ∧
    ∃ m colors, process_asm [] none [".foo .debug_info", "ret"] = .ok (m, colors) ∧
      containsSub "ret".data m.data = true := by
  refine ⟨rfl, _, _, rfl, ?_⟩
  decide

/-- Claim C6 as amended: a line that actually reaches the debug check — it
is not empty, not a `.loc` directive, not a suppressed directive, not a
suppressed label — and whose second token contains `.debug` stops
processing: the line emits no instruction (colors and the display line
counter unchanged) and every following line is dropped from the output. -/
theorem claim_C6 (st : St) (l : String) (t0 t1 : String) (ts : List String)
    (htok : tokensOf l = t0 :: t1 :: ts)
    (h0 : t0 ≠ "") (hloc : t0 ≠ ".loc")
    (hdir : pyStartsWith t0 "." = true →
      pyEndsWith t0 ":" = true ∨ t0 ∈ whitelist)
    (hlab : pyEndsWith t0 ":" = true → badlabelMatch t0 = false)
    (hdbg : containsSub ".debug".data t1.data = true) :
    ∃ st', process_line st l = .stop st' ∧
      st'.colors = st.colors ∧ st'.asmline = st.asmline ∧
      ∀ more, runLines st (l :: more) = .ok st' := by
  have hsupp : (pyStartsWith t0 "." && !pyEndsWith t0 ":" && !(whitelist.contains t0)) = false := by
    rcases Bool.eq_false_or_eq_true (pyStartsWith t0 ".") with bs | bs
    · rcases hdir bs with hb | hb <;> simp [bs, hb]
    · simp [bs]
  have hstep : ∃ st', process_line st l = .stop st' ∧
      st'.colors = st.colors ∧ st'.asmline = st.asmline := by
    rcases Bool.eq_false_or_eq_true st.blockOpen with bo | bo
    · rcases Bool.eq_false_or_eq_true (pyEndsWith t0 ":") with be | be <;>
        rcases Bool.eq_false_or_eq_true (pyStartsWith t0 ".") with bs | bs
      · refine ⟨{st with markup := st.markup ++ closeLoc, blockOpen := false}, ?_, rfl, rfl⟩
        simp [process_line, htok, h0, hloc, hsupp, be, bs, bo, hdbg, hlab be]
      · refine ⟨{st with markup := st.markup ++ closeLoc, blockOpen := false}, ?_, rfl, rfl⟩
        simp [process_line, htok, h0, hloc, hsupp, be, bs, bo, hdbg, hlab be]
      · have hw : t0 ∈ whitelist := (hdir bs).resolve_left (by simp [be])
        refine ⟨{st with markup := st.markup ++ closeLoc, blockOpen := false}, ?_, rfl, rfl⟩
        simp [process_line, htok, h0, hloc, hsupp, be, bs, bo, hdbg, hw]
      · refine ⟨st, ?_, rfl, rfl⟩
        simp [process_line, htok, h0, hloc, hsupp, be, bs, bo, hdbg]
    · refine ⟨st, ?_, rfl, rfl⟩
      rcases Bool.eq_false_or_eq_true (pyEndsWith t0 ":") with be | be <;>
        rcases Bool.eq_false_or_eq_true (pyStartsWith t0 ".") with bs | bs
      · simp [process_line, htok, h0, hloc, hsupp, be, bs, bo, hdbg, hlab be]
      · simp [process_line, htok, h0, hloc, hsupp, be, bs, bo, hdbg, hlab be]
      · have hw : t0 ∈ whitelist := (hdir bs).resolve_left (by simp [be])
        simp [process_line, htok, h0, hloc, hsupp, be, bs, bo, hdbg, hw]
      · simp [process_line, htok, h0, hloc, hsupp, be, bs, bo, hdbg]
  obtain ⟨st', h1, h2, h3⟩ := hstep
  exact ⟨st', h1, h2, h3, fun more => by simp [runLines, h1]⟩

/-- Witness for C6: the line `.section .debug_info` reaches the debug check
(`.section` is whitelisted) and stops the run for any continuation. -/
theorem claim_C6_witness :
    ∃ st', process_line (initSt refMov none) ".section .debug_info" = .stop st' ∧
      st'.colors = (initSt refMov none).colors ∧
      st'.asmline = (initSt refMov none).asmline ∧
      ∀ more, runLines (initSt refMov none) (".section .debug_info" :: more) = .ok st' :=
  claim_C6 (initSt refMov none) ".section .debug_info" ".section" ".debug_info" [] rfl
    (by decide) (by decide) (fun _ => Or.inr (by decide))
    (fun h => absurd h (by decide)) (by decide)

/-! ### Effect of one loop iteration on the color map and on `g` -/

set_option maxHeartbeats 1000000 in
theorem process_line_next_colors (st : St) (l : String) (st' : St)
    (h : process_line st l = LineRes.next st') :
    (st'.colors, st'.blocknum) = colorFoldGo st.colors st.blocknum (locOf l) := by
  unfold process_line at h
  unfold locOf
  generalize htok : tokensOf l = toks at h ⊢
  rcases toks with _ | ⟨t0, rest⟩
  · cases h
  · dsimp only at h ⊢
    by_cases h0 : t0 = ""
    · rw [if_pos h0] at h
      cases h
      simp [colorFoldGo, h0]
    · rw [if_neg h0] at h
      by_cases hl : t0 = ".loc"
      · rw [if_pos hl] at h ⊢
        rcases rest with _ | ⟨t1, rest2⟩
        · cases h
        · rcases rest2 with _ | ⟨t2, rest3⟩
          · cases h
          · have hg : (t0 :: t1 :: t2 :: rest3).get? 2 = some t2 := rfl
            rw [hg] at h ⊢
            dsimp only at h ⊢
            rcases hv : pyInt? t2.data with _ | v
            · rw [hv] at h; cases h
            · rw [hv] at h
              dsimp only at h
              rcases hlk : List.lookup v st.colors with _ | c <;>
                rw [hlk] at h <;> dsimp only at h <;> cases h <;>
                simp [colorFoldGo, hlk]
      · rw [if_neg hl] at h ⊢
        repeat' split at h
        all_goals cases h
        all_goals rfl

set_option maxHeartbeats 1000000 in
theorem process_line_next_g (st : St) (l : String) (st' : St)
    (h : process_line st l = LineRes.next st')
    (hcf : (tokensOf l).contains "@function" = false) : st'.g = st.g := by
  unfold process_line at h
  generalize htok : tokensOf l = toks at h hcf
  rcases toks with _ | ⟨t0, rest⟩
  · cases h
  · dsimp only at h
    have hcf' : ¬((t0 :: rest).contains "@function" = true) := by
      intro hc
      rw [hcf] at hc
      exact Bool.false_ne_true hc
    rw [if_neg hcf'] at h
    repeat' split at h
    all_goals cases h
    all_goals try rfl
    all_goals simp_all only [Except.ok.injEq, Bool.and_false, Bool.and_true,
      Bool.false_and, Bool.true_and, Bool.not_true, Bool.not_false]
    all_goals try contradiction
    all_goals subst_vars
    all_goals repeat' split
    all_goals rfl

set_option maxHeartbeats 1000000 in
theorem process_line_stop_state (st : St) (l : String) (st' : St)
    (h : process_line st l = LineRes.stop st') :
    st'.colors = st.colors ∧ st'.blocknum = st.blocknum ∧ st'.g = st.g ∧
      locOf l = [] := by
  unfold process_line at h
  generalize htok : tokensOf l = toks at h
  rcases toks with _ | ⟨t0, rest⟩
  · cases h
  · dsimp only at h
    by_cases hl : t0 = ".loc"
    · rw [if_pos hl] at h
      repeat' split at h
      all_goals cases h
    · rw [if_neg hl] at h
      have hloc : locOf l = [] := by simp [locOf, htok, hl]
      repeat' split at h
      all_goals cases h
      all_goals exact ⟨rfl, rfl, rfl, hloc⟩

/-! ### Round-robin color assignment: fold lemmas -/

theorem colorFoldGo_append (a b : List Int) : ∀ cs bn,
    colorFoldGo cs bn (a ++ b) =
      colorFoldGo (colorFoldGo cs bn a).1 (colorFoldGo cs bn a).2 b := by
  induction a with
  | nil => intro cs bn; rfl
  | cons v vs ih =>
    intro cs bn
    rcases h : List.lookup v cs with _ | c <;>
      simp only [List.cons_append, colorFoldGo, h] <;> exact ih _ _

theorem colorFoldGo_preserve (vs : List Int) : ∀ cs bn L c,
    List.lookup L cs = some c → List.lookup L (colorFoldGo cs bn vs).1 = some c := by
  induction vs with
  | nil => intro cs bn L c h; exact h
  | cons v vs ih =>
    intro cs bn L c h
    rcases hlk : List.lookup v cs with _ | d <;> simp only [colorFoldGo, hlk]
    · apply ih
      have hne : (L == v) = false := by
        by_cases hLv : L = v
        · subst hLv; rw [h] at hlk; cases hlk
        · simp [hLv]
      simp [List.lookup, hne, h]
    · exact ih _ _ _ _ h

theorem runLines_colors (ls : List String) : ∀ st st', runLines st ls = .ok st' →
    (st'.colors, st'.blocknum) = colorFoldGo st.colors st.blocknum (locEvents st ls) := by
  induction ls with
  | nil => intro st st' h; cases h; rfl
  | cons l ls ih =>
    intro st st' h
    unfold runLines at h
    unfold locEvents
    cases hpl : process_line st l with
    | next st1 =>
      rw [hpl] at h
      have h1 := process_line_next_colors st l st1 hpl
      have h2 := ih st1 st' h
      rw [colorFoldGo_append, ← h1]
      exact h2
    | stop st1 =>
      rw [hpl] at h
      obtain ⟨hc, hb, _, hlo⟩ := process_line_stop_state st l st1 hpl
      cases h
      rw [hlo, hc, hb]
      rfl
    | fail e =>
      rw [hpl] at h
      cases h

theorem dedupFirstAux_congr (vs : List Int) : ∀ s1 s2, (∀ x, x ∈ s1 ↔ x ∈ s2) →
    dedupFirstAux s1 vs = dedupFirstAux s2 vs := by
  induction vs with
  | nil => intro s1 s2 _; rfl
  | cons v vs ih =>
    intro s1 s2 hiff
    simp only [dedupFirstAux]
    by_cases hv : v ∈ s1
    · rw [if_pos hv, if_pos ((hiff v).mp hv)]
      exact ih s1 s2 hiff
    · rw [if_neg hv, if_neg (fun hc => hv ((hiff v).mpr hc))]
      rw [ih (v :: s1) (v :: s2) (fun x => by simp [hiff x])]

theorem firstIdx?_none_iff (L : Int) : ∀ ds, firstIdx? ds L = none ↔ L ∉ ds := by
  intro ds
  induction ds with
  | nil => simp [firstIdx?]
  | cons v ds ih =>
    by_cases hv : v = L
    · simp [firstIdx?, hv]
    · simp [firstIdx?, hv, ih, Option.map_eq_none', Ne.symm hv]

theorem firstIdx?_append_left (L : Int) : ∀ ds (e : List Int) k,
    firstIdx? ds L = some k → firstIdx? (ds ++ e) L = some k := by
  intro ds
  induction ds with
  | nil => intro e k h; cases h
  | cons v ds ih =>
    intro e k h
    by_cases hv : v = L
    · simp only [firstIdx?, if_pos hv] at h
      simp only [List.cons_append, firstIdx?, if_pos hv]
      exact h
    · simp only [firstIdx?, if_neg hv] at h
      simp only [List.cons_append, List.append_eq, firstIdx?, if_neg hv]
      rcases hk : firstIdx? ds L with _ | k0
      · rw [hk] at h; cases h
      · rw [hk] at h
        rw [ih e k0 hk]
        exact h

theorem firstIdx?_append_right (L : Int) : ∀ ds (e : List Int), L ∉ ds →
    firstIdx? (ds ++ e) L = (firstIdx? e L).map (· + ds.length) := by
  intro ds
  induction ds with
  | nil =>
    intro e _
    rcases h : firstIdx? e L with _ | k <;> simp [h]
  | cons v ds ih =>
    intro e hL
    have hv : ¬v = L := fun hc => hL (by simp [hc])
    have hL' : L ∉ ds := fun hc => hL (List.mem_cons_of_mem v hc)
    simp only [List.cons_append, List.append_eq, firstIdx?, if_neg hv, ih e hL']
    rcases h : firstIdx? e L with _ | k <;> simp [h, Nat.add_assoc]

theorem nodup_get?_firstIdx : ∀ (ds : List Int), ds.Nodup → ∀ k L,
    ds.get? k = some L → firstIdx? ds L = some k := by
  intro ds
  induction ds with
  | nil => intro _ k L h; cases h
  | cons v ds ih =>
    intro hnd k L h
    rcases k with _ | k
    · cases h
      simp [firstIdx?]
    · have hmem : L ∈ ds := List.get?_mem h
      have hv : ¬v = L := by
        rintro rfl
        exact (List.nodup_cons.mp hnd).1 hmem
      simp only [firstIdx?, if_neg hv, ih (List.nodup_cons.mp hnd).2 k L h]
      rfl

set_option maxHeartbeats 1000000 in
theorem colorFoldGo_spec : ∀ (vs ds : List Int) (cs : List (Int × Nat)) (bn : Nat),
    ds.Nodup → bn = ds.length →
    (∀ L, List.lookup L cs = (firstIdx? ds L).map (fun k => k % ncolors + 1)) →
    (ds ++ dedupFirstAux ds vs).Nodup ∧
    (colorFoldGo cs bn vs).2 = (ds ++ dedupFirstAux ds vs).length ∧
    ∀ L, List.lookup L (colorFoldGo cs bn vs).1 =
      (firstIdx? (ds ++ dedupFirstAux ds vs) L).map (fun k => k % ncolors + 1) := by
  intro vs
  induction vs with
  | nil =>
    intro ds cs bn hnd hbn hlk
    simpa [dedupFirstAux, colorFoldGo, hbn] using ⟨hnd, hlk⟩
  | cons v vs ih =>
    intro ds cs bn hnd hbn hlk
    by_cases hv : v ∈ ds
    · rcases hk : firstIdx? ds v with _ | k
      · exact absurd ((firstIdx?_none_iff v ds).mp hk) (fun hc => hc hv)
      · have hsome : List.lookup v cs = some (k % ncolors + 1) := by
          rw [hlk v, hk]; rfl
        have hded : dedupFirstAux ds (v :: vs) = dedupFirstAux ds vs := by
          simp [dedupFirstAux, hv]
        rw [hded]
        simp only [colorFoldGo, hsome]
        exact ih ds cs bn hnd hbn hlk
    · have hnone : List.lookup v cs = none := by
        rw [hlk v, (firstIdx?_none_iff v ds).mpr hv]
        rfl
      have hds2 : (ds ++ [v]).Nodup := by
        simp [List.nodup_append, hnd, hv]
      have hlen : bn + 1 = (ds ++ [v]).length := by simp [hbn]
      have hlk2 : ∀ L, List.lookup L ((v, bn % ncolors + 1) :: cs) =
          (firstIdx? (ds ++ [v]) L).map (fun k => k % ncolors + 1) := by
        intro L
        by_cases hLv : L = v
        · subst hLv
          have : firstIdx? (ds ++ [L]) L = some ds.length := by
            rw [firstIdx?_append_right L ds [L] hv]
            simp [firstIdx?]
          simp [List.lookup, this, hbn]
        · have hLv' : (L == v) = false := by simp [hLv]
          have hhd : List.lookup L ((v, bn % ncolors + 1) :: cs) = List.lookup L cs := by
            simp [List.lookup, hLv']
          rw [hhd, hlk L]
          by_cases hLds : L ∈ ds
          · rcases hkL : firstIdx? ds L with _ | kL
            · exact absurd ((firstIdx?_none_iff L ds).mp hkL) (fun hc => hc hLds)
            · rw [firstIdx?_append_left L ds [v] kL hkL]
          · have hvL : ¬v = L := fun hc => hLv hc.symm
            rw [(firstIdx?_none_iff L ds).mpr hLds,
                firstIdx?_append_right L ds [v] hLds]
            simp [firstIdx?, hvL]
      have hrec := ih (ds ++ [v]) ((v, bn % ncolors + 1) :: cs) (bn + 1) hds2 hlen hlk2
      have hded : dedupFirstAux ds (v :: vs) = v :: dedupFirstAux (ds ++ [v]) vs := by
        simp only [dedupFirstAux, if_neg hv]
        rw [dedupFirstAux_congr vs (v :: ds) (ds ++ [v]) (fun x => by simp [or_comm])]
      have hass : ds ++ dedupFirstAux ds (v :: vs) = (ds ++ [v]) ++ dedupFirstAux (ds ++ [v]) vs := by
        rw [hded, List.append_cons]
      rw [hass]
      simp only [colorFoldGo, hnone]
      exact hrec

/-- Claim C4: during one processing run, the k-th distinct source line number
first seen via a `.loc` directive (0-based `k` here: the `(k+1)`-th distinct
line) is assigned color index `k % ncolors + 1`; colors are assigned in
first-seen order by a round-robin cursor that advances only on unseen line
numbers. -/
theorem claim_C4 (ref : Ref) (locs : Option Locs) (asm : List String)
    (m : String) (colors : List (Int × Nat))
    (h : process_asm ref locs asm = .ok (m, colors)) (k : Nat) (L : Int)
    (hk : (dedupFirst (locEvents (initSt ref locs) asm)).get? k = some L) :
    List.lookup L colors = some (k % ncolors + 1) := by
  unfold process_asm at h
  cases hrun : runLines (initSt ref locs) asm with
  | error e => rw [hrun] at h; cases h
  | ok st =>
    rw [hrun] at h
    cases h
    have hsim := runLines_colors asm (initSt ref locs) st hrun
    obtain ⟨hnd, _, hlook⟩ := colorFoldGo_spec (locEvents (initSt ref locs) asm) [] [] 0
      (by simp) rfl (fun L => by simp [List.lookup, firstIdx?])
    have hcols : st.colors = (colorFoldGo [] 0 (locEvents (initSt ref locs) asm)).1 :=
      congrArg Prod.fst hsim
    have hnd' : (dedupFirst (locEvents (initSt ref locs) asm)).Nodup := by
      simpa [dedupFirst] using hnd
    have hidx := nodup_get?_firstIdx _ hnd' k L hk
    rw [hcols, hlook L]
    have : firstIdx? ([] ++ dedupFirstAux [] (locEvents (initSt ref locs) asm)) L = some k := by
      simpa [dedupFirst] using hidx
    rw [this]
    rfl

theorem runLines_mono (ls : List String) (st st' : St) (L : Int) (c : Nat)
    (h : runLines st ls = .ok st') (hl : List.lookup L st.colors = some c) :
    List.lookup L st'.colors = some c := by
  have hsim := runLines_colors ls st st' h
  have h1 : st'.colors = (colorFoldGo st.colors st.blocknum (locEvents st ls)).1 :=
    congrArg Prod.fst hsim
  rw [h1]
  exact colorFoldGo_preserve _ _ _ _ _ hl

theorem runLines_append (pre : List String) : ∀ (suf : List String) (st st1 st' : St),
    runLines st pre = .ok st1 → runLines st (pre ++ suf) = .ok st' →
    st' = st1 ∨ runLines st1 suf = .ok st' := by
  induction pre with
  | nil =>
    intro suf st st1 st' h1 h2
    cases h1
    exact Or.inr h2
  | cons l pre ih =>
    intro suf st st1 st' h1 h2
    rw [List.cons_append] at h2
    unfold runLines at h1 h2
    cases hpl : process_line st l with
    | next st2 =>
      rw [hpl] at h1 h2
      exact ih suf st2 st1 st' h1 h2
    | stop st2 =>
      rw [hpl] at h1 h2
      cases h1
      cases h2
      exact Or.inl rfl
    | fail e =>
      rw [hpl] at h1
      cases h1

/-- Claim C8: the color map is idempotent per source line — once a line
number is bound to a color at any point of the run (after any prefix of the
lines), it keeps that color to the end of the run — and every stored color
index lies in `[1, ncolors]`. -/
theorem claim_C8 (ref : Ref) (locs : Option Locs) (asm : List String)
    (m : String) (colors : List (Int × Nat))
    (h : process_asm ref locs asm = .ok (m, colors)) :
    (∀ L c, List.lookup L colors = some c → 1 ≤ c ∧ c ≤ ncolors) ∧
    (∀ pre suf st1 L c, asm = pre ++ suf →
        runLines (initSt ref locs) pre = .ok st1 →
        List.lookup L st1.colors = some c →
        List.lookup L colors = some c) := by
  unfold process_asm at h
  cases hrun : runLines (initSt ref locs) asm with
  | error e => rw [hrun] at h; cases h
  | ok st =>
    rw [hrun] at h
    cases h
    constructor
    · intro L c hLc
      have hsim := runLines_colors asm (initSt ref locs) st hrun
      obtain ⟨_, _, hlook⟩ := colorFoldGo_spec (locEvents (initSt ref locs) asm) [] [] 0
        (by simp) rfl (fun L => by simp [List.lookup, firstIdx?])
      have hcols : st.colors = (colorFoldGo [] 0 (locEvents (initSt ref locs) asm)).1 :=
        congrArg Prod.fst hsim
      rw [hcols, hlook L] at hLc
      rcases hks : firstIdx? ([] ++ dedupFirstAux [] (locEvents (initSt ref locs) asm)) L with _ | k
      · rw [hks] at hLc; cases hLc
      · rw [hks] at hLc
        have hc : c = k % ncolors + 1 := by
          simpa using hLc.symm
        subst hc
        refine ⟨Nat.le_add_left 1 _, ?_⟩
        have : k % ncolors < ncolors := Nat.mod_lt k (by decide)
        omega
    · intro pre suf st1 L c hsplit h1 hLc
      subst hsplit
      rcases runLines_append pre suf (initSt ref locs) st1 st h1 hrun with heq | hrest
      · subst heq; exact hLc
      · exact runLines_mono suf st1 st L c hrest hLc

/-- Witness for C4: in a run over `.loc` lines 7, 9, 7, line 9 is the second
distinct line and receives color `1 % ncolors + 1 = 2`. -/
theorem claim_C4_witness :
    ∃ m colors,
      process_asm [] none [".loc 1 7 0", ".loc 1 9 0", ".loc 1 7 0"] = .ok (m, colors) ∧
      List.lookup (9 : Int) colors = some 2 := by
  refine ⟨_, _, rfl, ?_⟩
  exact claim_C4 [] none [".loc 1 7 0", ".loc 1 9 0", ".loc 1 7 0"] _ _ rfl 1 9 (by rfl)

/-- Witness for C8: in the run over `.loc` lines 7, 9, 7, all colors are in
range and line 7's color from the one-line prefix survives to the end. -/
theorem claim_C8_witness :
    ∃ m colors,
      process_asm [] none [".loc 1 7 0", ".loc 1 9 0", ".loc 1 7 0"] = .ok (m, colors) ∧
      (∀ L c, List.lookup L colors = some c → 1 ≤ c ∧ c ≤ ncolors) ∧
      List.lookup (7 : Int) colors = some 1 := by
  refine ⟨_, _, rfl, ?_, ?_⟩
  · exact (claim_C8 [] none [".loc 1 7 0", ".loc 1 9 0", ".loc 1 7 0"] _ _ rfl).1
  · exact (claim_C8 [] none [".loc 1 7 0", ".loc 1 9 0", ".loc 1 7 0"] _ _ rfl).2
      [".loc 1 7 0"] [".loc 1 9 0", ".loc 1 7 0"] _ 7 1 rfl rfl (by rfl)

/-! ### The undefined active-function attribute (claim C3) -/

theorem runThrough_g (pre : List String) : ∀ st st',
    runThrough st pre = some st' →
    (∀ l ∈ pre, (tokensOf l).contains "@function" = false) →
    st'.g = st.g := by
  induction pre with
  | nil => intro st st' h _; cases h; rfl
  | cons l pre ih =>
    intro st st' h hfn
    unfold runThrough at h
    cases hpl : process_line st l with
    | next st1 =>
      rw [hpl] at h
      have h1 := process_line_next_g st l st1 hpl (hfn l (List.mem_cons_self l pre))
      have h2 := ih st1 st' h (fun l' hl' => hfn l' (List.mem_cons_of_mem l hl'))
      rw [h2, h1]
    | stop st1 => rw [hpl] at h; cases h
    | fail e => rw [hpl] at h; cases h

theorem runThrough_runLines (pre : List String) : ∀ st st1 (ls : List String),
    runThrough st pre = some st1 →
    runLines st (pre ++ ls) = runLines st1 ls := by
  induction pre with
  | nil => intro st st1 ls h; cases h; rfl
  | cons l pre ih =>
    intro st st1 ls h
    unfold runThrough at h
    cases hpl : process_line st l with
    | next st2 =>
      rw [hpl] at h
      have hstep : runLines st (l :: (pre ++ ls)) = runLines st2 (pre ++ ls) := by
        conv_lhs => rw [runLines]
        rw [hpl]
      rw [List.cons_append, hstep]
      exact ih st2 st1 ls h
    | stop st2 => rw [hpl] at h; cases h
    | fail e => rw [hpl] at h; cases h

set_option maxHeartbeats 1000000 in
theorem process_line_operand_fail (st : St) (l : String)
    (t0 t1 : String) (ts : List String)
    (htok : tokensOf l = t0 :: t1 :: ts)
    (h0 : t0 ≠ "")
    (hs : pyStartsWith t0 "." = false)
    (he : pyEndsWith t0 ":" = false)
    (hrep : t0 ≠ "rep")
    (hdbg : containsSub ".debug".data t1.data = false)
    (hfn : (tokensOf l).contains "@function" = false)
    (hcm : pyStartsWith t1 "#" = false)
    (hfcn : st.g.fcn = none)
    (lv : Locs) (hlocs : st.g.locs = some lv) :
    process_line st l = .fail "AttributeError: g.fcn" := by
  have hloc : t0 ≠ ".loc" := by
    intro hc
    rw [hc] at hs
    cases hs
  rw [htok] at hfn
  unfold process_line
  rw [htok]
  dsimp only
  rw [if_neg h0, if_neg hloc]
  simp only [hs, he, Bool.false_and, Bool.and_false]
  rw [if_neg (by decide : ¬(false = true)), if_neg (by decide : ¬(false = true)),
      if_neg (by decide : ¬(false = true)), if_neg (by decide : ¬(false = true))]
  rw [show (t0 :: t1 :: ts).get? 1 = some t1 from rfl]
  dsimp only
  rw [if_neg (by rw [hdbg]; exact Bool.false_ne_true : ¬(containsSub ".debug".data t1.data = true))]
  rw [if_neg (by rw [hfn]; exact Bool.false_ne_true : ¬((t0 :: t1 :: ts).contains "@function" = true))]
  dsimp only
  unfold process_tokens
  dsimp only
  rw [if_neg hrep]
  dsimp only
  rw [if_neg (by rw [he]; exact Bool.false_ne_true : ¬(pyEndsWith t0 ":" = true)),
      if_neg (by rw [hs]; exact Bool.false_ne_true : ¬(pyStartsWith t0 "." = true))]
  rcases hhm : handle_mnemonic st.ref t0 "asm-token asm-mnemonic" with ⟨m0, r0⟩
  have hop : process_operand st.g t1 = .error "AttributeError: g.fcn" := by
    unfold process_operand
    rw [if_neg (by rw [hcm]; exact Bool.false_ne_true : ¬(pyStartsWith t1 "#" = true))]
    rw [hlocs]
    dsimp only
    rw [hfcn]
  simp only [List.foldlM, hop]
  rfl

/-- Claim C3: a listing containing an instruction line with at least one
operand before any `@function` marker line makes the run fail rather than
annotate the operand: `process_asm` initializes `g.fnc` (a typo), never
`g.fcn`, so the operand annotator's read of `g.fcn` raises `AttributeError`
even when the web layer installed a location table (`g.locs` set). -/
theorem claim_C3 (ref : Ref) (locs : Locs) (pre : List String) (l : String)
    (rest : List String) (st1 : St)
    (hpre : runThrough (initSt ref (some locs)) pre = some st1)
    (hfn : ∀ p ∈ pre, (tokensOf p).contains "@function" = false)
    (t0 t1 : String) (ts : List String)
    (htok : tokensOf l = t0 :: t1 :: ts)
    (h0 : t0 ≠ "") (hs : pyStartsWith t0 "." = false)
    (he : pyEndsWith t0 ":" = false) (hrep : t0 ≠ "rep")
    (hdbg : containsSub ".debug".data t1.data = false)
    (hfl : (tokensOf l).contains "@function" = false)
    (hcm : pyStartsWith t1 "#" = false) :
    process_asm ref (some locs) (pre ++ l :: rest) = .error "AttributeError: g.fcn" := by
  have hg : st1.g = (initSt ref (some locs)).g := runThrough_g pre _ _ hpre hfn
  have hfcn : st1.g.fcn = none := by rw [hg]; rfl
  have hlocs : st1.g.locs = some locs := by rw [hg]; rfl
  have hfail := process_line_operand_fail st1 l t0 t1 ts htok h0 hs he hrep hdbg hfl hcm
    hfcn locs hlocs
  unfold process_asm
  rw [runThrough_runLines pre _ _ (l :: rest) hpre]
  have hrl : runLines st1 (l :: rest) = .error "AttributeError: g.fcn" := by
    unfold runLines
    rw [hfail]
  rw [hrl]

/-- Witness for C3: the one-line listing `movq $1, %rax` fails with the
`AttributeError` on `g.fcn`. -/
theorem claim_C3_witness :
    process_asm [] (some []) ["movq $1, %rax"] = .error "AttributeError: g.fcn" :=
  claim_C3 [] [] [] "movq $1, %rax" [] (initSt [] (some [])) rfl
    (fun p hp => absurd hp (List.not_mem_nil p))
    "movq" "$1" ["%rax"] rfl (by decide) (by decide) (by decide) (by decide)
    (by decide) (by decide) (by decide)

end Assemblance
